import Mathlib

/-!
Shallow embedding of plexfs (src/api.rs, src/fs.rs): the catalog data
model, attribute synthesis, name escaping, the paginated crawl, the
directory-entry cache and the four filesystem operations, together with
theorems settling the specification claims.

Machine integers (u64, u32, i64) are modelled as Nat/Int; where u64
overflow matters (inode arithmetic) the wraparound is written explicitly
with `% U64`.
-/

namespace Plexfs

/-- 2^64, the modulus of Rust's u64 arithmetic. -/
def U64 : Nat := 2 ^ 64

/-- `Part` from src/api.rs: a playable item's pointer to its backing
byte stream. -/
structure Part where
  key : String
  file : String
  size : Nat
  container : Option String
deriving DecidableEq, Repr

/-- `Part::default()` from src/api.rs. -/
def Part.default : Part := ⟨"", "", 0, none⟩

/-- `Media` from src/api.rs. -/
structure Media where
  container : Option String
  video_resolution : Option String
  duration : Nat
  part : Part
deriving DecidableEq, Repr

/-- `Media::default()` from src/api.rs. -/
def Media.default : Media := ⟨none, none, 0, Part.default⟩

/-- `Item` from src/api.rs: a catalog item. -/
inductive Item where
  | Directory (rating_key : Nat) (guid title parent_title summary : String)
      (last_viewed_at added_at updated_at : Nat)
  | Video (title grandparent_title : String) (media : Media)
  | Track (rating_key : Nat) (guid title parent_title summary : String)
      (last_viewed_at added_at updated_at : Nat) (media : Media)
deriving DecidableEq, Repr

/-- `MediaContainer` from src/api.rs. -/
structure MediaContainer where
  items : List Item
deriving DecidableEq, Repr

/-- `MediaKind` from src/api.rs. -/
inductive MediaKind where
  | Video
  | TV
  | Music
deriving DecidableEq, Repr

/-- `fuse::FileType`, restricted to the two variants the code uses. -/
inductive FileType where
  | Directory
  | RegularFile
deriving DecidableEq, Repr

/-- `fuse::FileAttr`; timestamps are seconds since `UNIX_EPOCH`. -/
structure FileAttr where
  ino : Nat
  size : Nat
  blocks : Nat
  atime : Nat
  mtime : Nat
  ctime : Nat
  crtime : Nat
  kind : FileType
  perm : Nat
  nlink : Nat
  uid : Nat
  gid : Nat
  rdev : Nat
  flags : Nat
deriving DecidableEq, Repr

/-- `INO_ROOT` from src/fs.rs. -/
def INO_ROOT : Nat := 1

/-- `PAGE_SIZE` from src/fs.rs. -/
def PAGE_SIZE : Nat := 50

/-- `INO_ROOT + rating_key` in u64 arithmetic (src/fs.rs uses this sum
as the inode of a non-root item). -/
def inoOf (rating_key : Nat) : Nat := (INO_ROOT + rating_key) % U64

/-- `ino - INO_ROOT` in u64 (wrapping) arithmetic, used by `getattr`,
`read` and `readdir` to recover the rating key. -/
def keyOf (ino : Nat) : Nat := (ino + U64 - INO_ROOT) % U64

/-- `ROOT_DIR_ATTR` from src/fs.rs. -/
def ROOT_DIR_ATTR : FileAttr :=
  ⟨INO_ROOT, 0, 0, 0, 0, 0, 0, FileType.Directory, 0o444, 2, 501, 20, 0, 0⟩

/-- `to_attr` from src/fs.rs: attribute synthesis from a catalog item. -/
def to_attr (item : Item) : Option FileAttr :=
  match item with
  | Item.Directory rating_key _ _ _ _ last_viewed_at added_at updated_at =>
      some ⟨inoOf rating_key, 0, 0, last_viewed_at, updated_at, added_at, added_at,
        FileType.Directory, 0o444, 1, 501, 20, 0, 0⟩
  | Item.Track rating_key _ _ _ _ last_viewed_at added_at updated_at media =>
      some ⟨inoOf rating_key, media.part.size, 1, last_viewed_at, updated_at, added_at,
        added_at, FileType.RegularFile, 0o444, 1, 501, 20, 0, 0⟩
  | Item.Video _ _ _ => none

/-- `escape_name` from src/fs.rs: `str::replace(s, "/", "_")`.  With the
single-character pattern `"/"` this is exactly per-character
replacement. -/
def escape_name (s : String) : String :=
  String.mk (s.data.map (fun c => if c = '/' then '_' else c))

/-- Rust `str::split("/")` over the characters of the source string:
splits at every separator, keeping empty segments, so the result always
has at least one element.  `acc` holds the reversed characters of the
segment being read. -/
def splitSlash : List Char → List Char → List String
  | [], acc => [String.mk acc.reverse]
  | c :: rest, acc =>
      if c = '/' then String.mk acc.reverse :: splitSlash rest []
      else splitSlash rest (c :: acc)

/-- `Entry` from src/fs.rs: a cached directory entry. -/
structure Entry where
  rating_key : Nat
  kind : FileType
  attr : Option FileAttr
deriving DecidableEq, Repr

/-- The remote Plex server consumed through `PlexAPI` (src/api.rs),
modelled as pure fallible functions: `all section kind start size` and
`metadata_children rating_key start size` return a page of items with
the server-declared total, `metadata rating_key` a single-item
container, `file part offset size` the bytes of a ranged fetch. -/
structure PlexAPI where
  all : Nat → MediaKind → Nat → Nat → Except Unit (MediaContainer × Nat)
  metadata : Nat → Except Unit MediaContainer
  metadata_children : Nat → Nat → Nat → Except Unit (MediaContainer × Nat)
  file : Part → Int → Nat → Except Unit (List Nat)

/-- The Range header bounds computed by `PlexAPI::file` (src/api.rs):
`format!("bytes=\x7b\x7d-\x7b\x7d", offset, offset + size as i64)`.
An HTTP byte range `bytes=a-b` is inclusive of both endpoints. -/
def fileRange (offset : Int) (size : Nat) : Int × Int := (offset, offset + size)

/-- Association-list lookup, modelling `HashMap::get`. -/
def alookup {κ ν : Type} [DecidableEq κ] : List (κ × ν) → κ → Option ν
  | [], _ => none
  | (k, v) :: rest, key => if k = key then some v else alookup rest key

/-- Association-list insert with overwrite, modelling `HashMap::insert`. -/
def ainsert {κ ν : Type} [DecidableEq κ] : List (κ × ν) → κ → ν → List (κ × ν)
  | [], key, v => [(key, v)]
  | (k, w) :: rest, key, v =>
      if k = key then (key, v) :: rest else (k, w) :: ainsert rest key v

/-- `PlexFS` from src/fs.rs; `entries` is the per-parent-inode entry
cache (`HashMap<u64, HashMap<OsString, Entry>>`). -/
structure PlexFS where
  api : PlexAPI
  sectionId : Nat
  kind : MediaKind
  entries : List (Nat × List (String × Entry))

/-- The paging loop of `readdir` (src/fs.rs) after the first page:
`start += PAGE_SIZE; while start < size { if let Ok(..) = fetch(start)
{ push }; start += PAGE_SIZE }`.  Returns the containers of the
successful pages in order, paired with the list of starts at which a
fetch was issued (failed fetches included). -/
def crawlLoop (fetch : Nat → Nat → Except Unit (MediaContainer × Nat))
    (total : Nat) (start : Nat) : List MediaContainer × List Nat :=
  if start < total then
    let tail := crawlLoop fetch total (start + PAGE_SIZE)
    match fetch start PAGE_SIZE with
    | Except.ok (c, _) => (c :: tail.1, start :: tail.2)
    | Except.error _ => (tail.1, start :: tail.2)
  else ([], [])
termination_by total - start
decreasing_by simp [PAGE_SIZE]; omega

/-- The whole paginated crawl of `readdir` (src/fs.rs): fetch page 0,
read the declared total from it, then run `crawlLoop` from
`PAGE_SIZE`.  A first-page failure yields no containers.  Returns the
containers in fetch order paired with the fetch log (list of starts). -/
def crawl (fetch : Nat → Nat → Except Unit (MediaContainer × Nat)) :
    List MediaContainer × List Nat :=
  match fetch 0 PAGE_SIZE with
  | Except.ok (first, total) =>
      let tail := crawlLoop fetch total PAGE_SIZE
      (first :: tail.1, 0 :: tail.2)
  | Except.error _ => ([], [0])

/-- The per-item step of `readdir`'s entry-building loop (src/fs.rs):
the name and `Entry` inserted for an item, or `none` when the item is
skipped.  For a Track, `path.split("/").last().unwrap()` cannot panic
because `split` always yields at least one segment; `getLastD` is its
exact total counterpart. -/
def entryFor (item : Item) : Option (String × Entry) :=
  let attr := to_attr item
  match item with
  | Item.Directory rating_key _ title _ _ _ _ _ =>
      some (escape_name title, ⟨rating_key, FileType.RegularFile, attr⟩)
  | Item.Track rating_key _ _ _ _ _ _ _ media =>
      let filename := (splitSlash media.part.file.data []).getLastD ""
      some (filename, ⟨rating_key, FileType.RegularFile, attr⟩)
  | Item.Video _ _ _ => none

/-- The entry-building loop of `readdir` (src/fs.rs): fold the crawled
containers' items into the per-name entry map. -/
def buildEntries (containers : List MediaContainer) : List (String × Entry) :=
  containers.foldl
    (fun en c =>
      c.items.foldl
        (fun en item =>
          match entryFor item with
          | some (name, e) => ainsert en name e
          | none => en)
        en)
    []

/-- The reply loop of `readdir` (src/fs.rs): for each cached entry from
position `offset` onward, `reply.add(INO_ROOT + entry.rating_key,
(i + 1), entry.kind, name)`. -/
def replyEntries (entries : List (String × Entry)) (offset : Nat) :
    List (Nat × Nat × FileType × String) :=
  (entries.enum.drop offset).map
    (fun p => (inoOf p.2.2.rating_key, p.1 + 1, p.2.2.kind, p.2.1))

/-- `readdir` from src/fs.rs: populate the cache bucket for `ino` by a
paginated crawl when absent (section listing for the root, children
listing otherwise), then reply with the entries from `offset` onward.
Returns the new filesystem state, the replied entries `(child inode,
position, kind, name)`, and the log of page-fetch starts issued by this
call (empty on a cache hit). -/
def readdir (fs : PlexFS) (ino : Nat) (offset : Nat) :
    PlexFS × List (Nat × Nat × FileType × String) × List Nat :=
  match alookup fs.entries ino with
  | some en => (fs, replyEntries en offset, [])
  | none =>
      let crawled :=
        if ino = INO_ROOT then
          crawl (fun start size => fs.api.all fs.sectionId fs.kind start size)
        else
          crawl (fun start size => fs.api.metadata_children (keyOf ino) start size)
      let en := buildEntries crawled.1
      (⟨fs.api, fs.sectionId, fs.kind, ainsert fs.entries ino en⟩,
        replyEntries en offset, crawled.2)

/-- The reply of `lookup` (src/fs.rs): an entry with attributes, or
ENOENT. -/
inductive LookupReply where
  | entry (attr : FileAttr)
  | enoent
deriving DecidableEq, Repr

/-- `lookup` from src/fs.rs: consult the entry cache for `parent`, then
the name; reply with the cached attributes, ENOENT on any miss. -/
def lookup (fs : PlexFS) (parent : Nat) (name : String) : LookupReply :=
  match alookup fs.entries parent with
  | some names =>
      match alookup names name with
      | some e =>
          match e.attr with
          | some attr => LookupReply.entry attr
          | none => LookupReply.enoent
      | none => LookupReply.enoent
  | none => LookupReply.enoent

/-- `getattr` from src/fs.rs: fixed attributes for the root; otherwise
fetch single-item metadata for `ino - INO_ROOT` and synthesize
attributes from its first item.  `none` is ENOENT. -/
def getattr (fs : PlexFS) (ino : Nat) : Option FileAttr :=
  if ino = INO_ROOT then some ROOT_DIR_ATTR
  else
    match fs.api.metadata (keyOf ino) with
    | Except.ok container =>
        match container.items.head? with
        | some item => to_attr item
        | none => none
    | Except.error _ => none

/-- `read` from src/fs.rs: ENOENT for the root; otherwise re-fetch
single-item metadata, require a Track, issue one ranged fetch against
its Part and reply with `body[0..min(size, body.len())]`.  Returns the
reply (`none` is ENOENT) paired with the log of ranged fetches issued
as `(part, offset, size)` triples. -/
def read (fs : PlexFS) (ino : Nat) (offset : Int) (size : Nat) :
    Option (List Nat) × List (Part × Int × Nat) :=
  if ino = INO_ROOT then (none, [])
  else
    match fs.api.metadata (keyOf ino) with
    | Except.ok container =>
        match container.items.head? with
        | some item =>
            match item with
            | Item.Track _ _ _ _ _ _ _ _ media =>
                ((match fs.api.file media.part offset size with
                  | Except.ok body => some (body.take (min size body.length))
                  | Except.error _ => none),
                 [(media.part, offset, size)])
            | _ => (none, [])
        | none => (none, [])
    | Except.error _ => (none, [])

/-! ## Helper characterizations -/

/-- The starts at which `crawlLoop` issues fetches: every multiple-step
start below the declared total, regardless of fetch outcomes. -/
def loopStarts (total : Nat) (start : Nat) : List Nat :=
  if start < total then start :: loopStarts total (start + PAGE_SIZE) else []
termination_by total - start
decreasing_by simp [PAGE_SIZE]; omega

theorem crawlLoop_eq_aux (fetch : Nat → Nat → Except Unit (MediaContainer × Nat)) :
    ∀ (n total start : Nat), total - start ≤ n →
    crawlLoop fetch total start =
      ((loopStarts total start).filterMap
        (fun s => (fetch s PAGE_SIZE).toOption.map Prod.fst),
       loopStarts total start) := by
  intro n
  induction n with
  | zero =>
      intro total start h
      rw [crawlLoop, loopStarts]
      have hlt : ¬ start < total := by omega
      simp [hlt]
  | succ n ih =>
      intro total start h
      rw [crawlLoop, loopStarts]
      by_cases hlt : start < total
      · simp only [if_pos hlt]
        rw [ih total (start + PAGE_SIZE) (by simp only [PAGE_SIZE]; omega)]
        cases hf : fetch start PAGE_SIZE with
        | ok c => cases c; simp [hf, Except.toOption, List.filterMap_cons]
        | error e => simp [hf, Except.toOption, List.filterMap_cons]
      · simp [hlt]

/-- `crawlLoop` fetches exactly the starts `loopStarts total start` and
keeps, in order, the first components of the successful fetches. -/
theorem crawlLoop_eq (fetch : Nat → Nat → Except Unit (MediaContainer × Nat))
    (total : Nat) (start : Nat) :
    crawlLoop fetch total start =
      ((loopStarts total start).filterMap
        (fun s => (fetch s PAGE_SIZE).toOption.map Prod.fst),
       loopStarts total start) :=
  crawlLoop_eq_aux fetch (total - start) total start Nat.le.refl

theorem alookup_ainsert_self {κ ν : Type} [DecidableEq κ]
    (m : List (κ × ν)) (k : κ) (v : ν) :
    alookup (ainsert m k v) k = some v := by
  induction m with
  | nil => simp [ainsert, alookup]
  | cons p rest ih =>
      obtain ⟨pk, pv⟩ := p
      by_cases h : pk = k <;> simp [ainsert, alookup, h, ih]

theorem mem_ainsert {κ ν : Type} [DecidableEq κ]
    (p : κ × ν) (m : List (κ × ν)) (k : κ) (v : ν)
    (hp : p ∈ ainsert m k v) : p = (k, v) ∨ p ∈ m := by
  induction m with
  | nil => simpa [ainsert] using hp
  | cons q rest ih =>
      obtain ⟨qk, qv⟩ := q
      by_cases h : qk = k
      · simp only [ainsert, if_pos h, List.mem_cons] at hp
        rcases hp with hp | hp
        · exact Or.inl hp
        · exact Or.inr (List.mem_cons_of_mem _ hp)
      · simp only [ainsert, if_neg h, List.mem_cons] at hp
        rcases hp with hp | hp
        · exact Or.inr (by simp [hp])
        · rcases ih hp with hp | hp
          · exact Or.inl hp
          · exact Or.inr (List.mem_cons_of_mem _ hp)

theorem entryFor_attr_isSome (item : Item) (nm : String) (e : Entry)
    (h : entryFor item = some (nm, e)) : e.attr.isSome := by
  cases item with
  | Directory rk g t pt s lv aa ua =>
      simp only [entryFor, to_attr, Option.some.injEq, Prod.mk.injEq] at h
      rw [← h.2]
      rfl
  | Track rk g t pt s lv aa ua media =>
      simp only [entryFor, to_attr, Option.some.injEq, Prod.mk.injEq] at h
      rw [← h.2]
      rfl
  | Video t gt media => simp [entryFor] at h

/-- Inner loop of `buildEntries` preserves "every entry carries present
attributes". -/
theorem foldItems_attr_isSome (items : List Item) (en : List (String × Entry))
    (hen : ∀ p ∈ en, p.2.attr.isSome) :
    ∀ p ∈ items.foldl
        (fun en item =>
          match entryFor item with
          | some (nm, e) => ainsert en nm e
          | none => en) en,
      p.2.attr.isSome := by
  induction items generalizing en with
  | nil => exact hen
  | cons it rest ih =>
      simp only [List.foldl_cons]
      apply ih
      cases hfor : entryFor it with
      | none => simpa [hfor] using hen
      | some nme =>
          obtain ⟨nm, e⟩ := nme
          simp only [hfor]
          intro p hp
          rcases mem_ainsert p en nm e hp with hp | hp
          · rw [hp]; exact entryFor_attr_isSome it nm e hfor
          · exact hen p hp

theorem buildEntries_attr_isSome (containers : List MediaContainer) :
    ∀ p ∈ buildEntries containers, p.2.attr.isSome := by
  rw [buildEntries]
  generalize hinit : ([] : List (String × Entry)) = en
  have hen : ∀ p ∈ en, p.2.attr.isSome := by rw [← hinit]; simp
  clear hinit
  induction containers generalizing en with
  | nil => exact hen
  | cons c rest ih =>
      simp only [List.foldl_cons]
      exact ih _ (foldItems_attr_isSome c.items en hen)

theorem alookup_ainsert {κ ν : Type} [DecidableEq κ]
    (m : List (κ × ν)) (k key : κ) (v : ν) :
    alookup (ainsert m k v) key = if k = key then some v else alookup m key := by
  induction m with
  | nil => simp [ainsert, alookup]
  | cons p rest ih =>
      obtain ⟨pk, pv⟩ := p
      by_cases h : pk = k
      · subst h
        by_cases hk : pk = key <;> simp [ainsert, alookup, hk]
      · by_cases hk : pk = key
        · subst hk
          have h2 : ¬ k = pk := fun hh => h hh.symm
          simp [ainsert, alookup, h, h2]
        · simp [ainsert, alookup, h, hk, ih]

theorem alookup_mem {κ ν : Type} [DecidableEq κ]
    (m : List (κ × ν)) (key : κ) (v : ν)
    (h : alookup m key = some v) : (key, v) ∈ m := by
  induction m with
  | nil => simp [alookup] at h
  | cons p rest ih =>
      obtain ⟨pk, pv⟩ := p
      by_cases hk : pk = key
      · subst hk
        simp [alookup] at h
        subst h
        simp
      · simp only [alookup, if_neg hk] at h
        exact List.mem_cons_of_mem _ (ih h)

/-- Every bucket of the entry cache holds only entries with present
attributes. -/
def CacheWF (fs : PlexFS) : Prop :=
  ∀ ino en, alookup fs.entries ino = some en → ∀ p ∈ en, p.2.attr.isSome

/-! ## Concrete fixtures (fake remote catalogs) -/

/-- A root-listing Collection: rating key 5, title "Jazz". -/
def itemJazz : Item := Item.Directory 5 "g" "Jazz" "" "" 11 12 13

/-- The attributes `to_attr` synthesizes for `itemJazz`. -/
def jazzAttr : FileAttr :=
  ⟨6, 0, 0, 11, 13, 12, 12, FileType.Directory, 0o444, 1, 501, 20, 0, 0⟩

/-- Fake remote whose section listing is exactly `[itemJazz]`. -/
def apiJazz : PlexAPI :=
  ⟨fun _ _ start _ =>
      if start = 0 then Except.ok (⟨[itemJazz]⟩, 1) else Except.error (),
   fun _ => Except.error (),
   fun _ _ _ => Except.error (),
   fun _ _ _ => Except.error ()⟩

/-- Fresh filesystem over `apiJazz` with an empty entry cache. -/
def fsJazz : PlexFS := ⟨apiJazz, 10, MediaKind.Music, []⟩

/-- A Track whose Media is the empty default, so its Part's source path
is `""`. -/
def trackNoFile : Item := Item.Track 9 "g" "t" "" "" 0 0 0 Media.default

/-- Fake remote whose children listing for rating key 5 is exactly
`[trackNoFile]`. -/
def apiChild : PlexAPI :=
  ⟨fun _ _ _ _ => Except.error (),
   fun _ => Except.error (),
   fun rk start _ =>
      if rk = 5 then
        (if start = 0 then Except.ok (⟨[trackNoFile]⟩, 1) else Except.error ())
      else Except.error (),
   fun _ _ _ => Except.error ()⟩

/-- Fresh filesystem over `apiChild` with an empty entry cache. -/
def fsChild : PlexFS := ⟨apiChild, 10, MediaKind.Music, []⟩

/-- One-item pages for the partial-crawl scenario. -/
def pageA : MediaContainer := ⟨[Item.Directory 2 "g" "A" "" "" 0 0 0]⟩

/-- See `pageA`. -/
def pageC : MediaContainer := ⟨[Item.Directory 3 "g" "C" "" "" 0 0 0]⟩

/-- A paged listing declaring total 130 whose page at start 50 fails and
whose pages at starts 0 and 100 succeed. -/
def partialFetch : Nat → Nat → Except Unit (MediaContainer × Nat) :=
  fun start _ =>
    if start = 0 then Except.ok (pageA, 130)
    else if start = 100 then Except.ok (pageC, 99)
    else Except.error ()

/-- Pages of 50, 50 and 30 items for the pagination-completeness
scenario. -/
def page0 : MediaContainer := ⟨List.replicate 50 (Item.Directory 2 "g" "A" "" "" 0 0 0)⟩

/-- See `page0`. -/
def page1 : MediaContainer := ⟨List.replicate 50 (Item.Directory 3 "g" "B" "" "" 0 0 0)⟩

/-- See `page0`. -/
def page2 : MediaContainer := ⟨List.replicate 30 (Item.Directory 4 "g" "C" "" "" 0 0 0)⟩

/-- A paged listing declaring total 130 with all three pages
successful. -/
def fetch130 : Nat → Nat → Except Unit (MediaContainer × Nat) :=
  fun start _ =>
    if start = 0 then Except.ok (page0, 130)
    else if start = 50 then Except.ok (page1, 130)
    else if start = 100 then Except.ok (page2, 130)
    else Except.error ()

/-- A Track with rating key 9 backed by a 12345-byte Part. -/
def readTrack : Item :=
  Item.Track 9 "g" "song" "" "" 0 0 0
    ⟨none, none, 0, ⟨"/library/parts/9", "/x/song.mp3", 12345, none⟩⟩

/-- Fake remote serving `readTrack` as single-item metadata for rating
key 9 and answering every ranged fetch with 400 bytes. -/
def apiRead : PlexAPI :=
  ⟨fun _ _ _ _ => Except.error (),
   fun rk => if rk = 9 then Except.ok ⟨[readTrack]⟩ else Except.error (),
   fun _ _ _ => Except.error (),
   fun _ _ _ => Except.ok (List.replicate 400 7)⟩

/-- Fresh filesystem over `apiRead`. -/
def fsRead : PlexFS := ⟨apiRead, 10, MediaKind.Music, []⟩

/-- A catalog assigning to every rating key a Directory item with that
key. -/
def constItems : Nat → Item := fun k => Item.Directory k "g" "T" "" "" 0 0 0

/-- Fake remote serving `constItems rk` as single-item metadata for
every rating key. -/
def apiItems : PlexAPI :=
  ⟨fun _ _ _ _ => Except.error (),
   fun rk => Except.ok ⟨[constItems rk]⟩,
   fun _ _ _ => Except.error (),
   fun _ _ _ => Except.error ()⟩

/-- Fresh filesystem over `apiItems`. -/
def fsItems : PlexFS := ⟨apiItems, 10, MediaKind.Music, []⟩

/-! ## Claim theorems -/

/-- C1: the claim says enumerating a directory whose listing holds one
Collection (rating key 5, title "Jazz") yields one entry named "Jazz"
with inode `ROOT_INODE + 5` and node kind directory.  The code instead
replies kind `RegularFile` for Collection items — while `to_attr`
synthesizes kind `Directory` for the very same item — so the entry's
kind diverges from both the spec and the code's own attributes. -/
theorem readdir_collection_entry_kind :
    (readdir fsJazz INO_ROOT 0).2.1 = [(inoOf 5, 1, FileType.RegularFile, "Jazz")] ∧
    (to_attr itemJazz).map FileAttr.kind = some FileType.Directory ∧
    FileType.RegularFile ≠ FileType.Directory := by
  refine ⟨?_, rfl, by decide⟩
  simp [readdir, alookup, fsJazz, crawl, apiJazz, crawlLoop, PAGE_SIZE, INO_ROOT,
    buildEntries, entryFor, itemJazz, replyEntries, escape_name, to_attr, inoOf, U64,
    ainsert, List.enum, List.enumFrom]

/-- C2 counterexample: the remote root listing contains an item with a
resolvable name and synthesizable attributes, yet `lookup` on a fresh
filesystem (no prior enumerate) replies ENOENT — `lookup` never
populates the entry cache. -/
theorem lookup_without_enumerate_cex :
    apiJazz.all 10 MediaKind.Music 0 PAGE_SIZE = Except.ok (⟨[itemJazz]⟩, 1) ∧
    entryFor itemJazz = some ("Jazz", ⟨5, FileType.RegularFile, some jazzAttr⟩) ∧
    lookup fsJazz INO_ROOT "Jazz" = LookupReply.enoent := by
  exact ⟨rfl, by decide, rfl⟩

/-- C2 amended: `lookup` resolves purely against the already-populated
entry cache and never triggers a crawl: with no cache bucket for the
parent it replies ENOENT even when the remote listing has a matching
item; once an enumerate has populated the bucket, `lookup` returns the
cached entry's attributes for a matching name, and ENOENT when no
cached entry matches the name. -/
theorem lookup_cache_only (fs : PlexFS) (parent off : Nat) (name : String)
    (en : List (String × Entry)) (e : Entry) (a : FileAttr) :
    (alookup fs.entries parent = none → lookup fs parent name = LookupReply.enoent) ∧
    (alookup ((readdir fs parent off).1).entries parent = some en →
      alookup en name = some e → e.attr = some a →
      lookup (readdir fs parent off).1 parent name = LookupReply.entry a) ∧
    (alookup ((readdir fs parent off).1).entries parent = some en →
      alookup en name = none →
      lookup (readdir fs parent off).1 parent name = LookupReply.enoent) := by
  refine ⟨?_, ?_, ?_⟩
  · intro h
    simp [lookup, h]
  · intro h1 h2 h3
    simp [lookup, h1, h2, h3]
  · intro h1 h2
    simp [lookup, h1, h2]

/-- Witness for `lookup_cache_only` at the Jazz fixture: before any
enumerate the lookup misses; after the enumerate, "Jazz" resolves to
its cached attributes and the absent name "Blues" replies ENOENT. -/
theorem lookup_cache_only_witness :
    lookup fsJazz INO_ROOT "Jazz" = LookupReply.enoent ∧
    lookup (readdir fsJazz INO_ROOT 0).1 INO_ROOT "Jazz" = LookupReply.entry jazzAttr ∧
    lookup (readdir fsJazz INO_ROOT 0).1 INO_ROOT "Blues" = LookupReply.enoent := by
  have h := lookup_cache_only fsJazz INO_ROOT 0 "Jazz"
      [("Jazz", ⟨5, FileType.RegularFile, some jazzAttr⟩)]
      ⟨5, FileType.RegularFile, some jazzAttr⟩ jazzAttr
  have h2 := lookup_cache_only fsJazz INO_ROOT 0 "Blues"
      [("Jazz", ⟨5, FileType.RegularFile, some jazzAttr⟩)]
      ⟨5, FileType.RegularFile, some jazzAttr⟩ jazzAttr
  have hb : alookup ((readdir fsJazz INO_ROOT 0).1).entries INO_ROOT =
      some [("Jazz", ⟨5, FileType.RegularFile, some jazzAttr⟩)] := by
    simp [readdir, alookup, fsJazz, crawl, apiJazz, crawlLoop, PAGE_SIZE, INO_ROOT,
      buildEntries, entryFor, itemJazz, escape_name, to_attr, inoOf, U64, ainsert, jazzAttr]
  exact ⟨h.1 rfl, h.2.1 hb rfl rfl, h2.2.2 hb (by decide)⟩

/-- C3 counterexample: with declared total 130 and the page at start 50
failing, the crawl still issues a fetch at start 100 and keeps that
page's items — remaining pages are not skipped after a failure. -/
theorem crawl_partial_failure_cex :
    partialFetch 50 PAGE_SIZE = Except.error () ∧
    (crawl partialFetch).2 = [0, 50, 100] ∧
    (crawl partialFetch).1 = [pageA, pageC] := by
  have h := crawlLoop_eq partialFetch 130 PAGE_SIZE
  simp [loopStarts, PAGE_SIZE, partialFetch, Except.toOption] at h
  refine ⟨rfl, ?_, ?_⟩ <;>
    simp [crawl, partialFetch, h, PAGE_SIZE]

/-- C3 amended: when the first page succeeds with declared total
`total`, a failure on a later page drops only that page's items: every
start below `total` is still fetched (failures included) and the items
of the successful pages are kept in server order, with no error
signal. -/
theorem crawl_failure_keeps_later_pages
    (fetch : Nat → Nat → Except Unit (MediaContainer × Nat))
    (first : MediaContainer) (total : Nat)
    (h0 : fetch 0 PAGE_SIZE = Except.ok (first, total)) :
    crawl fetch =
      (first :: (loopStarts total PAGE_SIZE).filterMap
          (fun s => (fetch s PAGE_SIZE).toOption.map Prod.fst),
       0 :: loopStarts total PAGE_SIZE) := by
  rw [crawl, h0]
  simp [crawlLoop_eq]

/-- Witness for `crawl_failure_keeps_later_pages` at the partial-crawl
fixture. -/
theorem crawl_failure_keeps_later_pages_witness :
    crawl partialFetch =
      (pageA :: (loopStarts 130 PAGE_SIZE).filterMap
          (fun s => (partialFetch s PAGE_SIZE).toOption.map Prod.fst),
       0 :: loopStarts 130 PAGE_SIZE) :=
  crawl_failure_keeps_later_pages partialFetch pageA 130 rfl

/-- C4 counterexample: a Track whose Part is the empty default (source
path `""`, which has no non-empty final segment) is not skipped:
enumerating its parent yields an entry for it, named `""`. -/
theorem track_empty_path_visible_cex :
    trackNoFile = Item.Track 9 "g" "t" "" "" 0 0 0 Media.default ∧
    (readdir fsChild (inoOf 5) 0).2.1 = [(inoOf 9, 1, FileType.RegularFile, "")] := by
  refine ⟨rfl, ?_⟩
  simp [readdir, alookup, fsChild, crawl, apiChild, crawlLoop, PAGE_SIZE, INO_ROOT,
    buildEntries, entryFor, trackNoFile, replyEntries, splitSlash, Media.default,
    Part.default, to_attr, inoOf, keyOf, U64, ainsert, List.enum, List.enumFrom]

/-- C4 amended: Track name resolution is total: the split of the source
path always has a final segment (possibly the empty string, e.g. for
the empty default Part), and every Track is inserted — with present
attributes — under that possibly-empty name; no Track is invisible for
lack of a final segment. -/
theorem track_name_resolution_total :
    (∀ cs acc, splitSlash cs acc ≠ []) ∧
    (∀ rk g t pt s lv aa ua media, ∃ e : Entry,
      entryFor (Item.Track rk g t pt s lv aa ua media) =
        some ((splitSlash media.part.file.data []).getLastD "", e) ∧
      e.attr.isSome) := by
  constructor
  · intro cs
    induction cs with
    | nil => intro acc; simp [splitSlash]
    | cons c rest ih =>
        intro acc
        by_cases h : c = '/' <;> simp [splitSlash, h, ih]
  · intro rk g t pt s lv aa ua media
    exact ⟨⟨rk, FileType.RegularFile,
      to_attr (Item.Track rk g t pt s lv aa ua media)⟩, rfl, rfl⟩

/-- C5: for a listing whose first page declares total 130 at page size
50, the crawl fetches exactly starts 0, 50 and 100 and assembles the
130 items of the three pages in server order. -/
theorem crawl_pagination_complete
    (fetch : Nat → Nat → Except Unit (MediaContainer × Nat))
    (c0 c1 c2 : MediaContainer) (t1 t2 : Nat)
    (h0 : fetch 0 PAGE_SIZE = Except.ok (c0, 130))
    (h1 : fetch 50 PAGE_SIZE = Except.ok (c1, t1))
    (h2 : fetch 100 PAGE_SIZE = Except.ok (c2, t2))
    (l0 : c0.items.length = 50) (l1 : c1.items.length = 50)
    (l2 : c2.items.length = 30) :
    (crawl fetch).2 = [0, 50, 100] ∧
    ((crawl fetch).1.map MediaContainer.items).flatten =
      c0.items ++ c1.items ++ c2.items ∧
    (((crawl fetch).1.map MediaContainer.items).flatten).length = 130 := by
  have hc : crawl fetch = ([c0, c1, c2], [0, 50, 100]) := by
    rw [crawl, h0]
    have h := crawlLoop_eq fetch 130 PAGE_SIZE
    simp only [PAGE_SIZE] at h h1 h2
    simp [loopStarts, PAGE_SIZE, h1, h2, Except.toOption] at h
    simp [h, PAGE_SIZE]
  rw [hc]
  simp [l0, l1, l2]

/-- Witness for `crawl_pagination_complete` at the 130-item fixture. -/
theorem crawl_pagination_complete_witness :
    (crawl fetch130).2 = [0, 50, 100] ∧
    ((crawl fetch130).1.map MediaContainer.items).flatten =
      page0.items ++ page1.items ++ page2.items ∧
    (((crawl fetch130).1.map MediaContainer.items).flatten).length = 130 :=
  crawl_pagination_complete fetch130 page0 page1 page2 130 130 rfl rfl rfl
    (by simp [page0]) (by simp [page1]) (by simp [page2])

/-- C6: a successful read on a Track replies exactly the first
`min size n` bytes of the remote's response of `n` bytes — at most
`size` bytes, and fewer when the remote returned fewer (a short read is
not an error). -/
theorem read_clamps_to_remote (fs : PlexFS) (ino : Nat) (offset : Int)
    (size : Nat) (container : MediaContainer) (rk : Nat) (g t pt s : String)
    (lv aa ua : Nat) (media : Media) (body : List Nat)
    (hroot : ino ≠ INO_ROOT)
    (hmeta : fs.api.metadata (keyOf ino) = Except.ok container)
    (hhead : container.items.head? = some (Item.Track rk g t pt s lv aa ua media))
    (hfile : fs.api.file media.part offset size = Except.ok body) :
    (read fs ino offset size).1 = some (body.take (min size body.length)) ∧
    (body.take (min size body.length)).length = min size body.length ∧
    min size body.length ≤ size := by
  refine ⟨?_, ?_, Nat.min_le_left _ _⟩
  · simp [read, hroot, hmeta, hhead, hfile]
  · simp only [List.length_take]
    omega

/-- Witness for `read_clamps_to_remote`: a ranged fetch answering 400
bytes for a 1000-byte request yields exactly 400 bytes. -/
theorem read_clamps_to_remote_witness :
    (read fsRead 10 0 1000).1 =
      some ((List.replicate 400 (7:Nat)).take
        (min 1000 (List.replicate 400 (7:Nat)).length)) ∧
    ((List.replicate 400 (7:Nat)).take
        (min 1000 (List.replicate 400 (7:Nat)).length)).length =
      min 1000 (List.replicate 400 (7:Nat)).length ∧
    min 1000 (List.replicate 400 (7:Nat)).length ≤ 1000 :=
  read_clamps_to_remote fsRead 10 0 1000 ⟨[readTrack]⟩ 9 "g" "song" "" "" 0 0 0
    ⟨none, none, 0, ⟨"/library/parts/9", "/x/song.mp3", 12345, none⟩⟩
    (List.replicate 400 7) (by decide) rfl rfl rfl

/-- C7 counterexample: the claim says the requested byte range covers
exactly `length` bytes, i.e. ends at `offset + length - 1`; the Range
header actually computed ends at `offset + length`, spanning
`length + 1` bytes (at `offset = 0`, `length = 1000` the inclusive
range `0..1000` has 1001 bytes, not 1000). -/
theorem read_range_off_by_one_cex :
    fileRange 0 1000 = (0, 1000) ∧
    (fileRange 0 1000).2 - (fileRange 0 1000).1 + 1 ≠ (1000 : Int) := by
  exact ⟨rfl, by decide⟩

/-- C7 amended: every read on a Track issues exactly one ranged fetch
against the Track's Part, of `size` bytes at `offset`; the Range header
it sends starts at `offset` and spans `size + 1` bytes (bytes `offset`
through `offset + size` inclusive), one more than the requested
length. -/
theorem read_single_fetch_range (fs : PlexFS) (ino : Nat) (offset : Int)
    (size : Nat) (container : MediaContainer) (rk : Nat) (g t pt s : String)
    (lv aa ua : Nat) (media : Media)
    (hroot : ino ≠ INO_ROOT)
    (hmeta : fs.api.metadata (keyOf ino) = Except.ok container)
    (hhead : container.items.head? = some (Item.Track rk g t pt s lv aa ua media)) :
    (read fs ino offset size).2 = [(media.part, offset, size)] ∧
    (fileRange offset size).1 = offset ∧
    (fileRange offset size).2 - (fileRange offset size).1 + 1 = (size : Int) + 1 := by
  refine ⟨?_, rfl, ?_⟩
  · simp [read, hroot, hmeta, hhead]
  · simp only [fileRange]
    omega

/-- Witness for `read_single_fetch_range` at the `fsRead` fixture. -/
theorem read_single_fetch_range_witness :
    (read fsRead 10 0 1000).2 =
      [(⟨"/library/parts/9", "/x/song.mp3", 12345, none⟩, (0:Int), 1000)] ∧
    (fileRange 0 1000).1 = 0 ∧
    (fileRange 0 1000).2 - (fileRange 0 1000).1 + 1 = (1000 : Int) + 1 :=
  read_single_fetch_range fsRead 10 0 1000 ⟨[readTrack]⟩ 9 "g" "song" "" "" 0 0 0
    ⟨none, none, 0, ⟨"/library/parts/9", "/x/song.mp3", 12345, none⟩⟩
    (by decide) rfl rfl

/-- C8: once a first enumerate has populated an inode's cache bucket, a
second enumerate of the same inode returns the same filesystem state
(cache unchanged), the same entry list, and issues zero page
fetches. -/
theorem readdir_memoizes (fs : PlexFS) (ino off : Nat) :
    readdir (readdir fs ino off).1 ino off =
      ((readdir fs ino off).1, (readdir fs ino off).2.1, ([] : List Nat)) := by
  cases h : alookup fs.entries ino with
  | some en => simp [readdir, h]
  | none => simp [readdir, h, alookup_ainsert_self]

/-- C9: `rating_key ↦ ROOT_INODE + rating_key` (in u64 arithmetic) is
injective on rating keys below 2^64, and against a catalog serving one
item per rating key, `get_attributes (ROOT_INODE + k)` for `k ≥ 1`
synthesizes attributes from exactly the item with rating key `k`. -/
theorem inode_rating_key_bijection (items : Nat → Item) (fs : PlexFS)
    (hmeta : ∀ rk, fs.api.metadata rk = Except.ok ⟨[items rk]⟩)
    (k1 k2 : Nat) (h1 : 1 ≤ k1) (hb1 : k1 < U64) (h2 : 1 ≤ k2) (hb2 : k2 < U64) :
    (inoOf k1 = inoOf k2 → k1 = k2) ∧
    getattr fs (inoOf k1) = to_attr (items k1) := by
  have hU : U64 = 18446744073709551616 := by norm_num [U64]
  rw [hU] at hb1 hb2
  constructor
  · intro h
    simp only [inoOf, INO_ROOT, hU] at h
    omega
  · have hne : inoOf k1 ≠ INO_ROOT := by
      simp only [inoOf, INO_ROOT, hU]
      omega
    have hkey : keyOf (inoOf k1) = k1 := by
      simp only [inoOf, keyOf, INO_ROOT, hU]
      omega
    rw [getattr, if_neg hne, hkey, hmeta k1]
    rfl

/-- Witness for `inode_rating_key_bijection` at rating keys 5 and 7. -/
theorem inode_rating_key_bijection_witness :
    (inoOf 5 = inoOf 7 → 5 = 7) ∧
    getattr fsItems (inoOf 5) = to_attr (constItems 5) :=
  inode_rating_key_bijection constItems fsItems (fun rk => rfl) 5 7
    (by decide) (by norm_num [U64]) (by decide) (by norm_num [U64])

/-- C10: every entry the cache ever receives carries present
attributes — `buildEntries` only inserts Directory and Track items, for
which synthesis returns `some` — so `readdir` preserves cache
well-formedness, and on a well-formed cache `lookup` replies ENOENT
exactly when the parent bucket or the name is absent (the absent-
attributes ENOENT branch is unreachable). -/
theorem cache_attrs_always_present (fs : PlexFS) (ino off parent : Nat)
    (name : String) (hwf : CacheWF fs) :
    (∀ containers, ∀ p ∈ buildEntries containers, p.2.attr.isSome) ∧
    CacheWF (readdir fs ino off).1 ∧
    (lookup fs parent name = LookupReply.enoent ↔
      alookup fs.entries parent = none ∨
      ∃ en, alookup fs.entries parent = some en ∧ alookup en name = none) := by
  refine ⟨fun containers => buildEntries_attr_isSome containers, ?_, ?_⟩
  · cases h : alookup fs.entries ino with
    | some en =>
        simp only [readdir, h]
        exact hwf
    | none =>
        simp only [readdir, h]
        intro ino' en' h' p hp
        rw [alookup_ainsert] at h'
        by_cases hi : ino = ino'
        · rw [if_pos hi] at h'
          have he := Option.some.inj h'
          subst he
          exact buildEntries_attr_isSome _ p hp
        · rw [if_neg hi] at h'
          exact hwf ino' en' h' p hp
  · cases hp : alookup fs.entries parent with
    | none => simp [lookup, hp]
    | some en =>
        cases hn : alookup en name with
        | none => simp [lookup, hp, hn]
        | some e =>
            have hs : e.attr.isSome :=
              hwf parent en hp (name, e) (alookup_mem en name e hn)
            obtain ⟨a, ha⟩ := Option.isSome_iff_exists.mp hs
            simp [lookup, hp, hn, ha]

/-- Witness for `cache_attrs_always_present` at the fresh Jazz
filesystem (its empty cache is trivially well-formed). -/
theorem cache_attrs_always_present_witness :
    (∀ containers, ∀ p ∈ buildEntries containers, p.2.attr.isSome) ∧
    CacheWF (readdir fsJazz INO_ROOT 0).1 ∧
    (lookup fsJazz INO_ROOT "x" = LookupReply.enoent ↔
      alookup fsJazz.entries INO_ROOT = none ∨
      ∃ en, alookup fsJazz.entries INO_ROOT = some en ∧ alookup en "x" = none) :=
  cache_attrs_always_present fsJazz INO_ROOT 0 INO_ROOT "x"
    (by intro ino en h p hp; simp [fsJazz, alookup] at h)

end Plexfs
